import Mathlib

/-!
# Request Normalization Engine — verification development

Shallow embedding of the request-normalization translators of CLIProxyAPIPlus:

* `internal/translator/antigravity/gemini/antigravity_gemini_request.go`
  (`ConvertGeminiRequestToAntigravity`, `fixCLIToolResponse`,
  `parseFunctionResponseRaw`, `generateToolID`)
* `internal/translator/gemini/gemini/gemini_gemini_request.go`
  (`ConvertGeminiRequestToGemini`)

The Go code manipulates a parsed JSON document through gjson/sjson paths.
Here the document is embedded structurally: a conversation turn is a record
with a role string (`""` models an absent role) and a list of parts; a part is
a record of the optional JSON fields the translators inspect (`text`,
`thought`, `thoughtSignature`, `functionCall`, `functionResponse`), `none`
modelling an absent key.  Go's `len` on strings counts bytes, so string
lengths are compared via `String.utf8ByteSize`.  The crypto-random
`generateToolID` is modelled by an explicit generator `gen : Nat → String`
threaded as a counter; the claims below depend only on how generated
identifiers are paired, never on their values.
-/

namespace CLIProxy

/-- A `functionCall` JSON object: `{name, args, id?}`.  `id = none` models an
absent `id` key; `id = some ""` an explicitly empty one (the Go code treats
both as missing via `!Exists() || String() == ""`). -/
structure FunctionCall where
  name : String
  args : String
  id : Option String
  deriving DecidableEq, Repr

/-- A `functionResponse` JSON object: `{name, response, id?}`. -/
structure FunctionResponse where
  name : String
  response : String
  id : Option String
  deriving DecidableEq, Repr

/-- One element of a turn's `parts` array, as the union of the JSON keys the
translators read: `text`, `thought` (absent key reads as `false` through
`gjson.Result.Bool()`), `thoughtSignature`, `functionCall`,
`functionResponse`. -/
structure Part where
  text : Option String
  thought : Bool
  thoughtSignature : Option String
  functionCall : Option FunctionCall
  functionResponse : Option FunctionResponse
  deriving DecidableEq, Repr

/-- A conversation turn (`contents` array element): `{role, parts}`.
An absent role reads as `""` through `gjson.Result.String()`. -/
structure Turn where
  role : String
  parts : List Part
  deriving DecidableEq, Repr

/-- A per-tool function declaration: `{name, parameters?, parametersJsonSchema?}`,
the schema values kept opaque. -/
structure FunctionDecl where
  name : String
  parameters : Option String
  parametersJsonSchema : Option String
  deriving DecidableEq, Repr

/-- One element of the `tools` array, holding the declaration container under
either its camel-case or snake-case key. -/
structure Tool where
  functionDeclarations : Option (List FunctionDecl)
  function_declarations : Option (List FunctionDecl)
  deriving DecidableEq, Repr

/-- The request object the translators rewrite (the inner `request` object for
the Antigravity translator; the top-level object for the Gemini one): exactly
the keys the two Go functions touch, everything else untouched and hence
elided.  `responseSchema`/`responseJsonSchema` stand for
`generationConfig.responseSchema` / `generationConfig.responseJsonSchema`. -/
structure GeminiRequest where
  contents : Option (List Turn)
  system_instruction : Option String
  systemInstruction : Option String
  tools : Option (List Tool)
  responseSchema : Option String
  responseJsonSchema : Option String
  model : Option String
  safetySettings : Option String
  deriving DecidableEq, Repr

/-- The Antigravity envelope `{"project":"","request":{...},"model":"..."}`
built by `ConvertGeminiRequestToAntigravity`. -/
structure AntigravityEnvelope where
  project : String
  request : GeminiRequest
  model : String
  deriving DecidableEq, Repr

/-- Go's `strings.Contains(s, substr)`: byte-wise (hence case-sensitive)
substring containment. -/
def goContains (s substr : String) : Bool :=
  decide (substr.data <:+: s.data)

/-- The model-family test used by both the prefill and the reasoning-trace
branches of `ConvertGeminiRequestToAntigravity`:
`strings.Contains(modelName, "claude")`. -/
def classifyIsClaude (modelName : String) : Bool :=
  goContains modelName "claude"

/-- The sentinel written by the reasoning-trace handling:
`skip_thought_signature_validator`. -/
def skipSentinel : String := "skip_thought_signature_validator"

/-- Model of `generateToolID`: the Go function draws 12 crypto-random bytes
and returns `"toolu_" + hex`.  Randomness is modelled by a deterministic
supply of identifiers indexed by how many have been generated so far; the
default supply below is used for concrete evaluations. -/
def defaultGen (n : Nat) : String := "toolu_" ++ toString n

/-- Threads a state through a list while rewriting its elements, the shape of
the Go `ForEach` loops that both read and mutate. -/
def mapState (f : σ → α → σ × α) : σ → List α → σ × List α
  | s, [] => (s, [])
  | s, a :: as =>
    let sa := f s a
    let sas := mapState f sa.1 as
    (sas.1, sa.2 :: sas.2)

/-- Go's `strings.Join(l, "")`: plain concatenation. -/
def strConcat : List String → String
  | [] => ""
  | s :: l => s ++ strConcat l

/-! ## Conversation Grouper — `fixCLIToolResponse` -/

/-- `FunctionCallGroup` from the Go source: a pending group awaiting
`ResponsesNeeded` function responses. -/
structure FunctionCallGroup where
  ResponsesNeeded : Nat
  deriving DecidableEq, Repr

/-- `parseFunctionResponseRaw`: normalizes one buffered response part.  In the
Go source the first branch (`response.IsObject() && gjson.Valid(response.Raw)`)
returns the part unchanged; the fallback branches reconstruct a minimal
`functionResponse` object from a non-object gjson result.  Parts are embedded
structurally here, so every buffered part is an object and the function is the
object branch; all Go branches return a non-empty object, so each buffered
response always yields exactly one part. -/
def parseFunctionResponseRaw (response : Part) : Part := response

/-- The `functionResponse`-bearing parts of a turn, in order
(`responsePartsInThisContent` in the Go source). -/
def responseParts (t : Turn) : List Part :=
  t.parts.filter (fun p => p.functionResponse.isSome)

/-- `functionCallsCount` for a turn: how many parts carry a `functionCall`. -/
def functionCallsCount (t : Turn) : Nat :=
  (t.parts.filter (fun p => p.functionCall.isSome)).length

/-- The Go loop `for i := len(pendingGroups) - 1; i >= 0; i--` with a `break`
at the first group whose requirement fits the buffer: returns the
largest-index (most recently created) satisfiable group together with its
index, or `none` when no group is satisfiable. -/
def findLastSatisfiable : List FunctionCallGroup → Nat → Option (Nat × FunctionCallGroup)
  | [], _ => none
  | g :: gs, bufLen =>
    match findLastSatisfiable gs bufLen with
    | some ig => some (ig.1 + 1, ig.2)
    | none => if g.ResponsesNeeded ≤ bufLen then some (0, g) else none

/-- The running state of `fixCLIToolResponse`'s main loop: the output
`contentsWrapper`, the `pendingGroups` list and the `collectedResponses`
buffer. -/
structure GrouperState where
  out : List Turn
  pending : List FunctionCallGroup
  buffer : List Part
  deriving Repr

/-- The merged function-response content built from dequeued responses:
`{"parts":[...],"role":"function"}` in the Go source. -/
def groupTurn (ps : List Part) : Turn := { role := "function", parts := ps }

/-- One iteration of the `contents.ForEach` loop of `fixCLIToolResponse`
(the Go locals `buf`, `groupResponses`, `rest` and `parts` are inlined). -/
def grouperStep (st : GrouperState) (t : Turn) : GrouperState :=
  if 0 < (responseParts t).length then
    -- collect the responses, then scan pending groups newest-first;
    -- a resolved group dequeues its requirement from the buffer front and
    -- is emitted only when it yields at least one part
    match findLastSatisfiable st.pending (st.buffer ++ responseParts t).length with
    | some ig =>
      if 0 < (((st.buffer ++ responseParts t).take ig.2.ResponsesNeeded).map
          parseFunctionResponseRaw).length then
        { out := st.out ++ [groupTurn (((st.buffer ++ responseParts t).take
            ig.2.ResponsesNeeded).map parseFunctionResponseRaw)],
          pending := st.pending.eraseIdx ig.1,
          buffer := (st.buffer ++ responseParts t).drop ig.2.ResponsesNeeded }
      else
        { out := st.out,
          pending := st.pending.eraseIdx ig.1,
          buffer := (st.buffer ++ responseParts t).drop ig.2.ResponsesNeeded }
    | none => { st with buffer := st.buffer ++ responseParts t }
  else if t.role = "model" ∧ 0 < functionCallsCount t then
    { st with out := st.out ++ [t],
              pending := st.pending ++ [{ ResponsesNeeded := functionCallsCount t }] }
  else
    { st with out := st.out ++ [t] }

/-- The post-loop flush of `fixCLIToolResponse`: walks the remaining pending
groups in creation order, emitting a grouping turn for each whose requirement
the buffer can meet; returns the emitted turns and the unconsumed buffer. -/
def flushGroups : List FunctionCallGroup → List Part → List Turn × List Part
  | [], buf => ([], buf)
  | g :: gs, buf =>
    if g.ResponsesNeeded ≤ buf.length then
      ((if 0 < ((buf.take g.ResponsesNeeded).map parseFunctionResponseRaw).length then
          [groupTurn ((buf.take g.ResponsesNeeded).map parseFunctionResponseRaw)]
        else [])
        ++ (flushGroups gs (buf.drop g.ResponsesNeeded)).1,
       (flushGroups gs (buf.drop g.ResponsesNeeded)).2)
    else
      flushGroups gs buf

/-- The empty initial state of the grouping pass. -/
def GrouperState.start : GrouperState := { out := [], pending := [], buffer := [] }

/-- The whole grouping pass of `fixCLIToolResponse` over the contents array:
main loop followed by the flush. -/
def fixCLIContents (ts : List Turn) : List Turn :=
  (ts.foldl grouperStep GrouperState.start).out ++
    (flushGroups (ts.foldl grouperStep GrouperState.start).pending
      (ts.foldl grouperStep GrouperState.start).buffer).1

/-- The responses still buffered after the final flush (dropped from the
output by `fixCLIToolResponse`). -/
def groupLeftover (ts : List Turn) : List Part :=
  (flushGroups (ts.foldl grouperStep GrouperState.start).pending
    (ts.foldl grouperStep GrouperState.start).buffer).2

/-- `fixCLIToolResponse`: fails with `contents not found in input` when the
request has no contents array, otherwise rewrites the contents by grouping. -/
def fixCLIToolResponse (req : GeminiRequest) : Except String GeminiRequest :=
  match req.contents with
  | none => .error "contents not found in input"
  | some ts => .ok { req with contents := some (fixCLIContents ts) }

/-! ## Role Normalizer

The role-defaulting walk appears verbatim in both translators
(`antigravity_gemini_request.go` lines 63–88 and `gemini_gemini_request.go`
lines 59–85); it is defined once here. -/

/-- The inference branch of the role walk: empty previous role gives `user`,
`user` gives `model`, anything else gives `user`. -/
def inferRole (prevRole : String) : String :=
  if prevRole = "" then "user" else if prevRole = "user" then "model" else "user"

/-- The role walk from a given previous role. -/
def normalizeRolesFrom (prevRole : String) : List Turn → List Turn
  | [] => []
  | t :: ts =>
    if t.role = "" ∨ ¬(t.role = "user" ∨ t.role = "model") then
      let nr := inferRole prevRole
      { t with role := nr } :: normalizeRolesFrom nr ts
    else
      t :: normalizeRolesFrom t.role ts

/-- The full role-normalization pass (`prevRole` starts empty). -/
def normalizeRoles (ts : List Turn) : List Turn :=
  normalizeRolesFrom "" ts

/-! ## Prefill Adapter — the `strings.Contains(modelName, "claude")` block -/

/-- Whether a turn has a part carrying `functionCall` (the `hasFunctionCall`
scan of the prefill block). -/
def turnHasFunctionCall (t : Turn) : Bool :=
  t.parts.any (fun p => p.functionCall.isSome)

/-- `prefillTexts`: the non-empty `text` fields of the trailing model turn's
parts, in order (`part.Get("text").String()` reads an absent key as `""`). -/
def prefillTexts (parts : List Part) : List String :=
  parts.filterMap (fun p =>
    let t := p.text.getD ""
    if t ≠ "" then some t else none)

/-- A synthetic single-text turn. -/
def mkTextTurn (role body : String) : Turn :=
  { role := role,
    parts := [{ text := some body, thought := false, thoughtSignature := none,
                functionCall := none, functionResponse := none }] }

/-- The prefill rewrite applied to the contents when the model is classified
as Claude: if the last turn has role `model` and no `functionCall` part, drop
it and, when it contributed non-empty text, append a synthetic
`Continue from: ...` user turn. -/
def prefillApply (ts : List Turn) : List Turn :=
  match ts.getLast? with
  | none => ts
  | some lastT =>
    if lastT.role = "model" then
      if turnHasFunctionCall lastT then ts
      else
        let texts := prefillTexts lastT.parts
        let dropped := ts.dropLast
        if texts.length > 0 then
          dropped ++ [mkTextTurn "user" ("Continue from: " ++ strConcat texts)]
        else dropped
    else ts

/-! ## Schema & Field Adapter pieces

The rename loops live in the translators; the key-moving primitive
`util.RenameKey` is not among the provided sources.  Modelled from the spec:
a rename copies the value verbatim from the source key to the target key and
deletes the source key, and is a no-op when the source key is absent. -/

/-- The `parameters → parametersJsonSchema` rename applied to one function
declaration. -/
def renameDeclParameters (d : FunctionDecl) : FunctionDecl :=
  match d.parameters with
  | some v => { d with parameters := none, parametersJsonSchema := some v }
  | none => d

/-- The Antigravity tools loop: for each tool with a `function_declarations`
array, rename each declaration's `parameters` key. -/
def renameToolParameters (t : Tool) : Tool :=
  match t.function_declarations with
  | some ds => { t with function_declarations := some (ds.map renameDeclParameters) }
  | none => t

/-- The Gemini tools loop: first `functionDeclarations → function_declarations`,
then the per-declaration `parameters` rename. -/
def geminiRenameTool (t : Tool) : Tool :=
  let t :=
    match t.functionDeclarations with
    | some ds => { t with functionDeclarations := none, function_declarations := some ds }
    | none => t
  renameToolParameters t

/-- The `system_instruction → systemInstruction` rename of the Antigravity
translator. -/
def renameSystemInstruction (req : GeminiRequest) : GeminiRequest :=
  match req.system_instruction with
  | some v => { req with system_instruction := none, systemInstruction := some v }
  | none => req

/-- Modelled from the spec: `common.AttachDefaultSafetySettings` is not among
the provided sources.  Per §2/§7 it is the final safety-settings defaulting
step: it fills in default safety settings when the key is absent and leaves
every other field of the payload untouched. -/
def AttachDefaultSafetySettings (req : GeminiRequest) : GeminiRequest :=
  { req with safetySettings := some (req.safetySettings.getD "default") }

/-! ## Tool-Call Linker — the tool-ID injection loop -/

/-- The ephemeral per-request registry of the linker: the Go maps
`callCount : map[string]int`, `toolIDMap : map[callKey]string`,
`respCount : map[string]int` (zero-defaulting maps modelled as total
functions), plus the position of the identifier supply. -/
structure LinkState where
  callCount : String → Nat
  toolIDMap : String → Nat → Option String
  respCount : String → Nat
  nextID : Nat

/-- The initial (empty) linker registry. -/
def LinkState.init : LinkState :=
  { callCount := fun _ => 0, toolIDMap := fun _ _ => none,
    respCount := fun _ => 0, nextID := 0 }

/-- Processing of one part of a `model` turn by the linker: a `functionCall`
part with a missing or empty id receives a freshly generated id which is also
recorded in the registry at `(name, callCount name)`; a `functionCall` part
that already has a non-empty id is recorded there unchanged; in both cases the
per-name call counter is incremented. -/
def linkCallPart (gen : Nat → String) (st : LinkState) (p : Part) : LinkState × Part :=
  match p.functionCall with
  | none => (st, p)
  | some c =>
    if c.id.getD "" = "" then
      ({ st with
          callCount := fun x => if x = c.name then st.callCount c.name + 1 else st.callCount x,
          toolIDMap := fun x j =>
            if x = c.name ∧ j = st.callCount c.name then some (gen st.nextID)
            else st.toolIDMap x j,
          nextID := st.nextID + 1 },
       { p with functionCall := some { c with id := some (gen st.nextID) } })
    else
      ({ st with
          callCount := fun x => if x = c.name then st.callCount c.name + 1 else st.callCount x,
          toolIDMap := fun x j =>
            if x = c.name ∧ j = st.callCount c.name then some (c.id.getD "")
            else st.toolIDMap x j },
       p)

/-- Processing of one part of a `user`/`function` turn by the linker: a
`functionResponse` part with a missing or empty id looks up
`(name, respCount name)`, takes the registered id when present, and the
per-name response counter is incremented either way; a response already
carrying a non-empty id is left alone and not counted. -/
def linkRespPart (st : LinkState) (p : Part) : LinkState × Part :=
  match p.functionResponse with
  | none => (st, p)
  | some r =>
    if r.id.getD "" = "" then
      match st.toolIDMap r.name (st.respCount r.name) with
      | some i =>
        ({ st with respCount := fun x =>
            if x = r.name then st.respCount r.name + 1 else st.respCount x },
         { p with functionResponse := some { r with id := some i } })
      | none =>
        ({ st with respCount := fun x =>
            if x = r.name then st.respCount r.name + 1 else st.respCount x },
         p)
    else (st, p)

/-- One iteration of the linker's outer `ForEach` over the contents
(`antigravity_gemini_request.go` lines 168–205): role `model` links calls,
roles `user`/`function` link responses, other roles are untouched. -/
def linkTurn (gen : Nat → String) (st : LinkState) (t : Turn) : LinkState × Turn :=
  if t.role = "model" then
    ((mapState (linkCallPart gen) st t.parts).1,
     { t with parts := (mapState (linkCallPart gen) st t.parts).2 })
  else if t.role = "user" ∨ t.role = "function" then
    ((mapState linkRespPart st t.parts).1,
     { t with parts := (mapState linkRespPart st t.parts).2 })
  else (st, t)

/-- The whole Tool-Call Linker pass over the contents. -/
def toolCallLink (gen : Nat → String) (ts : List Turn) : List Turn :=
  (mapState (linkTurn gen) LinkState.init ts).2

/-! ## Reasoning-Trace Adapter — the sentinel block of the Antigravity
translator (non-Claude models only) -/

/-- First pass over a model turn's parts: every `functionCall` part whose
`thoughtSignature` is empty or shorter than 50 bytes (Go `len` counts bytes)
gets the sentinel. -/
def sentinelFunctionCallPass (parts : List Part) : List Part :=
  parts.map (fun p =>
    if p.functionCall.isSome then
      let existingSig := p.thoughtSignature.getD ""
      if existingSig = "" ∨ existingSig.utf8ByteSize < 50 then
        { p with thoughtSignature := some skipSentinel }
      else p
    else p)

/-- Second pass: every part with `thought == true` gets the sentinel
unconditionally (the Go source writes these by collected index, in reverse;
the writes are independent per part, so this is a map). -/
def sentinelThoughtPass (parts : List Part) : List Part :=
  parts.map (fun p =>
    if p.thought then { p with thoughtSignature := some skipSentinel } else p)

/-- The sentinel stage (`antigravity_gemini_request.go` lines 210–240):
skipped entirely for Claude models, otherwise rewrites the parts of every
`model` turn by the two passes above. -/
def applyThoughtSentinels (modelName : String) (ts : List Turn) : List Turn :=
  if classifyIsClaude modelName then ts
  else
    ts.map (fun t =>
      if t.role = "model" then
        { t with parts := sentinelThoughtPass (sentinelFunctionCallPass t.parts) }
      else t)

/-! ## The two converters -/

/-- `ConvertGeminiRequestToAntigravity`: wraps the request into the
Antigravity envelope (deleting `request.model`), then applies, in the order of
the Go source: `fixCLIToolResponse` (an error there makes the Go function
return the empty byte slice, modelled as `none`), the
`system_instruction` rename, the role walk, the Claude prefill block, the
tools `parameters` rename, the tool-ID linker, the non-Claude sentinel block,
and the safety-settings defaulting. -/
def ConvertGeminiRequestToAntigravity (gen : Nat → String) (modelName : String)
    (req : GeminiRequest) : Option AntigravityEnvelope :=
  let req0 : GeminiRequest := { req with model := none }
  match fixCLIToolResponse req0 with
  | .error _ => none
  | .ok r1 =>
    let r2 := renameSystemInstruction r1
    let r3 := { r2 with contents := r2.contents.map normalizeRoles }
    let r4 :=
      if classifyIsClaude modelName then
        { r3 with contents := r3.contents.map prefillApply }
      else r3
    let r5 := { r4 with tools := r4.tools.map (List.map renameToolParameters) }
    let r6 := { r5 with contents := r5.contents.map (toolCallLink gen) }
    let r7 := { r6 with contents := r6.contents.map (applyThoughtSentinels modelName) }
    some { project := "", request := AttachDefaultSafetySettings r7, model := modelName }

/-- The fused model-turn part handling of `ConvertGeminiRequestToGemini`
(lines 101–118): every `functionCall` part gets the sentinel unconditionally
and, when id-less, a generated id recorded in the registry; a part without
`functionCall` but with an existing `thoughtSignature` gets the sentinel. -/
def geminiModelPart (gen : Nat → String) (st : LinkState) (p : Part) : LinkState × Part :=
  match p.functionCall with
  | some c =>
    if c.id.getD "" = "" then
      ({ st with
          callCount := fun x => if x = c.name then st.callCount c.name + 1 else st.callCount x,
          toolIDMap := fun x j =>
            if x = c.name ∧ j = st.callCount c.name then some (gen st.nextID)
            else st.toolIDMap x j,
          nextID := st.nextID + 1 },
       { p with thoughtSignature := some skipSentinel,
                functionCall := some { c with id := some (gen st.nextID) } })
    else (st, { p with thoughtSignature := some skipSentinel })
  | none =>
    if p.thoughtSignature.isSome then
      (st, { p with thoughtSignature := some skipSentinel })
    else (st, p)

/-- The contents walk of `ConvertGeminiRequestToGemini` (lines 97–136):
`model` turns get sentinels and call ids, `user` turns get response ids
(there is no `function` branch in this translator). -/
def geminiLinkTurn (gen : Nat → String) (st : LinkState) (t : Turn) : LinkState × Turn :=
  if t.role = "model" then
    ((mapState (geminiModelPart gen) st t.parts).1,
     { t with parts := (mapState (geminiModelPart gen) st t.parts).2 })
  else if t.role = "user" then
    ((mapState linkRespPart st t.parts).1,
     { t with parts := (mapState linkRespPart st t.parts).2 })
  else (st, t)

/-- `ConvertGeminiRequestToGemini`: fast path attaching only safety settings
when `contents` is absent; otherwise the tools renames, the role walk, the
fused sentinel/ID walk, the `responseSchema` rename, and the safety-settings
defaulting.  The model-name parameter of the Go function is unused. -/
def ConvertGeminiRequestToGemini (gen : Nat → String) (_modelName : String)
    (req : GeminiRequest) : GeminiRequest :=
  match req.contents with
  | none => AttachDefaultSafetySettings req
  | some ts =>
    let r1 := { req with tools := req.tools.map (List.map geminiRenameTool) }
    let ts1 := normalizeRoles ts
    let ts2 := (mapState (geminiLinkTurn gen) LinkState.init ts1).2
    let r2 := { r1 with contents := some ts2 }
    let r3 :=
      match r2.responseSchema with
      | some v => { r2 with responseSchema := none, responseJsonSchema := some v }
      | none => r2
    AttachDefaultSafetySettings r3

/-! ## Observation functions used by the claims -/

/-- The number of `functionResponse` parts in a list of turns. -/
def totalResponses (ts : List Turn) : Nat :=
  (ts.map (fun t => (responseParts t).length)).sum

/-- The `functionCall` objects named `f` contributed by one part (at most
one). -/
def partCalls (p : Part) (f : String) : List FunctionCall :=
  match p.functionCall with
  | some c => if c.name = f then [c] else []
  | none => []

/-- The `functionResponse` objects named `f` contributed by one part (at most
one). -/
def partResps (p : Part) (f : String) : List FunctionResponse :=
  match p.functionResponse with
  | some r => if r.name = f then [r] else []
  | none => []

/-- The `functionCall` objects named `f` a turn contributes to the linker's
per-name call sequence (only `model` turns do). -/
def turnCalls (t : Turn) (f : String) : List FunctionCall :=
  if t.role = "model" then (t.parts.map (fun p => partCalls p f)).flatten else []

/-- The `functionResponse` objects named `f` a turn contributes to the
linker's per-name response sequence (only `user`/`function` turns do). -/
def turnResps (t : Turn) (f : String) : List FunctionResponse :=
  if t.role = "user" ∨ t.role = "function" then
    (t.parts.map (fun p => partResps p f)).flatten
  else []

/-- The `functionCall` objects named `f` carried by `model` turns, in turn
then part order (the sequence whose ordinals the Tool-Call Linker registers). -/
def callsOf (ts : List Turn) (f : String) : List FunctionCall :=
  (ts.map (fun t => turnCalls t f)).flatten

/-- The `functionResponse` objects named `f` carried by `user`/`function`
turns, in turn then part order (the sequence whose ordinals the Tool-Call
Linker consumes). -/
def respsOf (ts : List Turn) (f : String) : List FunctionResponse :=
  (ts.map (fun t => turnResps t f)).flatten

/-- Every `functionResponse` part sitting in a `user`/`function` turn has a
missing or empty id (the hypothesis of the FIFO-pairing claims: the
conversation's responses initially lack ids). -/
def RespIdless (ts : List Turn) : Prop :=
  ∀ t ∈ ts, (t.role = "user" ∨ t.role = "function") →
    ∀ p ∈ t.parts, (p.functionResponse.map (fun r => r.id.getD "")).getD "" = ""

/-- The linker-registry invariant tying a `LinkState` to the per-name call
and response sequences of the output produced so far: the call counter counts
the calls, the registry holds exactly the output calls' ids by ordinal, the
response counter counts the responses, and every output response is either
id-less or carries the registered id of its own ordinal. -/
def LinkInv (st : LinkState) (calls : String → List FunctionCall)
    (resps : String → List FunctionResponse) : Prop :=
  (∀ f, st.callCount f = (calls f).length) ∧
  (∀ f j, st.toolIDMap f j = ((calls f)[j]?).map (fun c => c.id.getD "")) ∧
  (∀ f, st.respCount f = (resps f).length) ∧
  (∀ f k r, (resps f)[k]? = some r →
    r.id.getD "" = "" ∨ st.toolIDMap f k = some (r.id.getD ""))

/-- A well-formed synthesized grouping turn: role `function`, at least one
part, only `functionResponse` parts. -/
def GoodGroupTurn (t : Turn) : Prop :=
  t.role = "function" ∧ t.parts ≠ [] ∧ ∀ p ∈ t.parts, p.functionResponse.isSome = true

/-! ## Claim-side definitions (written from the spec's words, for comparison
with the source-derived definitions above) -/

/-- The stage pipeline in the order the spec claims (§2): Schema & Field
Adapter, Role Normalizer, Prefill Adapter, Tool-Call Linker, Reasoning-Trace
Adapter, Conversation Grouper, safety-settings defaulting. -/
def specOrderConvert (gen : Nat → String) (modelName : String)
    (req : GeminiRequest) : Option AntigravityEnvelope :=
  let req0 : GeminiRequest := { req with model := none }
  let r1 := renameSystemInstruction
    { req0 with tools := req0.tools.map (List.map renameToolParameters) }
  let r2 := { r1 with contents := r1.contents.map normalizeRoles }
  let r3 :=
    if classifyIsClaude modelName then
      { r2 with contents := r2.contents.map prefillApply }
    else r2
  let r4 := { r3 with contents := r3.contents.map (toolCallLink gen) }
  let r5 := { r4 with contents := r4.contents.map (applyThoughtSentinels modelName) }
  match fixCLIToolResponse r5 with
  | .error _ => none
  | .ok r6 =>
    some { project := "", request := AttachDefaultSafetySettings r6, model := modelName }

/-- The stages that `ConvertGeminiRequestToAntigravity` runs after the
grouper, as one function (for stating the actual stage order). -/
def postGroupStages (gen : Nat → String) (modelName : String)
    (r1 : GeminiRequest) : GeminiRequest :=
  let r2 := renameSystemInstruction r1
  let r3 := { r2 with contents := r2.contents.map normalizeRoles }
  let r4 :=
    if classifyIsClaude modelName then
      { r3 with contents := r3.contents.map prefillApply }
    else r3
  let r5 := { r4 with tools := r4.tools.map (List.map renameToolParameters) }
  let r6 := { r5 with contents := r5.contents.map (toolCallLink gen) }
  let r7 := { r6 with contents := r6.contents.map (applyThoughtSentinels modelName) }
  AttachDefaultSafetySettings r7

/-- The actual order of the Antigravity converter: the Conversation Grouper
first, then the remaining stages. -/
def groupFirstConvert (gen : Nat → String) (modelName : String)
    (req : GeminiRequest) : Option AntigravityEnvelope :=
  (fixCLIToolResponse { req with model := none }).toOption.map
    (fun r => { project := "", request := postGroupStages gen modelName r,
                model := modelName })

/-- The prefill rewrite as claim C8 words it: only the bodies of `Text` parts
(text-carrying parts that are not thoughts) are concatenated. -/
def prefillClaimStrict (ts : List Turn) : List Turn :=
  match ts.getLast? with
  | none => ts
  | some lastT =>
    if lastT.role = "model" then
      if turnHasFunctionCall lastT then ts
      else
        let c := strConcat (lastT.parts.filterMap (fun p => if p.thought then none else p.text))
        if c ≠ "" then ts.dropLast ++ [mkTextTurn "user" ("Continue from: " ++ c)]
        else ts.dropLast
    else ts

/-- The prefill rewrite amended to what the source does: the `text` field of
every part of the trailing model turn (thoughts included) is concatenated. -/
def prefillClaimAmended (ts : List Turn) : List Turn :=
  match ts.getLast? with
  | none => ts
  | some lastT =>
    if lastT.role = "model" then
      if turnHasFunctionCall lastT then ts
      else
        let c := strConcat (lastT.parts.map (fun p => p.text.getD ""))
        if c ≠ "" then ts.dropLast ++ [mkTextTurn "user" ("Continue from: " ++ c)]
        else ts.dropLast
    else ts

/-- Per-part summary of the Antigravity sentinel stage for non-Claude models:
a thought part always gets the sentinel; otherwise a `functionCall` part gets
it exactly when its signature is empty or shorter than 50 bytes. -/
def sentinelPartSpec (p : Part) : Part :=
  if p.thought then { p with thoughtSignature := some skipSentinel }
  else if p.functionCall.isSome ∧
      ((p.thoughtSignature.getD "") = "" ∨ (p.thoughtSignature.getD "").utf8ByteSize < 50) then
    { p with thoughtSignature := some skipSentinel }
  else p

/-- Byte-wise lowercasing of a model identifier. -/
def lowerStr (s : String) : String := String.mk (s.data.map Char.toLower)

/-! ## Test fixtures -/

/-- A part holding only a `functionCall`. -/
def callPart (f : String) (id : Option String) : Part :=
  { text := none, thought := false, thoughtSignature := none,
    functionCall := some { name := f, args := "{}", id := id }, functionResponse := none }

/-- A part holding only a `functionResponse`. -/
def respPart (f : String) (id : Option String) : Part :=
  { text := none, thought := false, thoughtSignature := none,
    functionCall := none, functionResponse := some { name := f, response := "ok", id := id } }

/-- A plain text part. -/
def textPart (s : String) : Part :=
  { text := some s, thought := false, thoughtSignature := none,
    functionCall := none, functionResponse := none }

/-- A thought part (text with `thought: true`). -/
def thoughtPart (s : String) : Part :=
  { text := some s, thought := true, thoughtSignature := none,
    functionCall := none, functionResponse := none }

/-- A request carrying only a contents array. -/
def mkReq (ts : List Turn) : GeminiRequest :=
  { contents := some ts, system_instruction := none, systemInstruction := none,
    tools := none, responseSchema := none, responseJsonSchema := none,
    model := none, safetySettings := none }

/-- The empty request (no contents at all). -/
def emptyReq : GeminiRequest :=
  { contents := none, system_instruction := none, systemInstruction := none,
    tools := none, responseSchema := none, responseJsonSchema := none,
    model := none, safetySettings := none }

/-- C3's distinguishing conversation: a role-less turn carrying a call,
followed by a response turn. -/
def reqC3 : GeminiRequest :=
  mkReq [{ role := "user", parts := [textPart "hi"] },
         { role := "", parts := [callPart "foo" none] },
         { role := "user", parts := [respPart "foo" none] }]

/-- A 60-byte thought signature. -/
def longSig : String := String.mk (List.replicate 60 'a')

/-- C4's conversation for the Gemini-to-Gemini translator: a model-turn call
already carrying the non-empty id `id1`, followed by an id-less response to
the same function. -/
def reqC4 : GeminiRequest :=
  mkReq [{ role := "model", parts := [callPart "foo" (some "id1")] },
         { role := "user", parts := [respPart "foo" none] }]

/-- C7's distinguishing grouper state: two pending groups (the older needing
1 response, the newer needing 2) and one buffered response. -/
def c7State : GrouperState :=
  { out := [],
    pending := [{ ResponsesNeeded := 1 }, { ResponsesNeeded := 2 }],
    buffer := [respPart "a" none] }

/-- A single-response user turn. -/
def c7Turn : Turn := { role := "user", parts := [respPart "b" none] }

/-- P4's conversation: two id-less calls to `foo` followed by two id-less
responses in separate turns. -/
def c1P4 : List Turn :=
  [{ role := "model", parts := [callPart "foo" none, callPart "foo" none] },
   { role := "user", parts := [respPart "foo" none] },
   { role := "user", parts := [respPart "foo" none] }]

/-! ## Theorems -/

/-- C6 (counterexample): the model-family classification is case-sensitive:
`Claude-3-opus` and `claude-3-opus` are classified differently, refuting the
claimed case-insensitive substring check. -/
theorem classify_case_sensitive :
    classifyIsClaude "Claude-3-opus" ≠ classifyIsClaude "claude-3-opus" := by
  decide

/-- C6 (amended): the classification used by the prefill and reasoning-trace
gates is a case-sensitive substring check for the lowercase word `claude`;
identifiers differing only in letter case can be classified differently, and
lowercasing an identifier can only preserve a positive classification, never
drop it. -/
theorem classify_substring_lower_mono :
    (∀ m : String, classifyIsClaude m = true → classifyIsClaude (lowerStr m) = true) ∧
    (classifyIsClaude "Claude-3-opus" = false ∧ classifyIsClaude "claude-3-opus" = true) := by
  refine ⟨?_, by decide, by decide⟩
  intro m h
  have h' : "claude".data <:+: m.data := of_decide_eq_true h
  have h2 : ("claude".data.map Char.toLower) <:+: (m.data.map Char.toLower) :=
    h'.map Char.toLower
  have hfix : ("claude".data.map Char.toLower) = "claude".data := by decide
  rw [hfix] at h2
  exact decide_eq_true h2

/-- Witness for `classify_substring_lower_mono` at a concrete identifier. -/
theorem classify_substring_lower_mono_witness :
    classifyIsClaude "claude-3-opus" = true ∧
    classifyIsClaude (lowerStr "claude-3-opus") = true :=
  ⟨by decide, classify_substring_lower_mono.1 "claude-3-opus" (by decide)⟩

/-- C3 (counterexample): running the stages in the order the claim states
(schema renames, roles, prefill, linker, sentinels, grouper, safety) gives a
different result from the implemented converter on a conversation whose
call-bearing turn lacks a role: the implemented converter groups before role
normalization, so the role-less call turn opens no group and the response is
dropped, while the claimed order would bundle the response into a grouping
turn. -/
theorem stage_order_differs_from_spec :
    specOrderConvert defaultGen "gpt-5" reqC3 ≠
      ConvertGeminiRequestToAntigravity defaultGen "gpt-5" reqC3 := by
  decide

/-- C3 (amended): the actual stage order of the Antigravity converter is:
Conversation Grouper first, then the system-instruction rename, the Role
Normalizer, the (Claude-only) Prefill Adapter, the parameters-schema rename,
the Tool-Call Linker, the (non-Claude) Reasoning-Trace Adapter, and the
safety-settings defaulting — so the grouper observes raw, un-normalized
roles. -/
theorem convert_antigravity_stage_order (gen : Nat → String) (m : String)
    (req : GeminiRequest) :
    ConvertGeminiRequestToAntigravity gen m req = groupFirstConvert gen m req := by
  unfold ConvertGeminiRequestToAntigravity groupFirstConvert postGroupStages
  cases h : fixCLIToolResponse { req with model := none } <;>
    simp [h, Except.toOption]

/-- C2 (counterexample): the grouper can drop `FunctionResponse` parts: a
lone response turn with no preceding call-bearing model turn is absorbed into
the buffer and never emitted, so the total response-part count changes. -/
theorem grouper_drops_unmatched_response :
    totalResponses (fixCLIContents [{ role := "user", parts := [respPart "foo" none] }]) ≠
      totalResponses [{ role := "user", parts := [respPart "foo" none] }] := by
  decide

/-- C5 (counterexample): in the Gemini-to-Gemini translator the sentinel is
written unconditionally onto every model-turn `functionCall` part — here a
60-byte signature, which the claim says is left unchanged, is overwritten. -/
theorem gemini_sentinel_overwrites_long_signature :
    (ConvertGeminiRequestToGemini defaultGen "gemini-2.5-pro"
        (mkReq [{ role := "model",
                  parts := [{ text := none, thought := false,
                              thoughtSignature := some longSig,
                              functionCall := some { name := "f", args := "{}", id := some "x" },
                              functionResponse := none }] }])).contents =
      some [{ role := "model",
              parts := [{ text := none, thought := false,
                          thoughtSignature := some skipSentinel,
                          functionCall := some { name := "f", args := "{}", id := some "x" },
                          functionResponse := none }] }] ∧
    skipSentinel ≠ longSig := by
  exact ⟨by decide, by decide⟩

/-- C8 (counterexample): the prefill block reads the `text` field of every
part, so a trailing model turn holding only a thought part is turned into a
`Continue from:` user turn, while the claim (concatenating `Text` parts only)
predicts the turn is simply dropped. -/
theorem prefill_includes_thought_text :
    prefillApply [{ role := "model", parts := [thoughtPart "x"] }] ≠
      prefillClaimStrict [{ role := "model", parts := [thoughtPart "x"] }] := by
  decide

/-- C1 (counterexample): a response occurring in an earlier turn than its
call is left id-less while the call still receives a generated id, so the
0-th id-less response to `foo` does not receive the id assigned to the 0-th
call to `foo`. -/
theorem linker_resp_before_call_unpaired :
    ((respsOf (toolCallLink defaultGen
        [{ role := "user", parts := [respPart "foo" none] },
         { role := "model", parts := [callPart "foo" none] }]) "foo").map
      (fun r => r.id.getD "")) = [""] ∧
    ((callsOf (toolCallLink defaultGen
        [{ role := "user", parts := [respPart "foo" none] },
         { role := "model", parts := [callPart "foo" none] }]) "foo").map
      (fun c => c.id.getD "")) = ["toolu_0"] ∧
    ("" : String) ≠ "toolu_0" := by
  exact ⟨by decide, by decide, by decide⟩

/-- C9: with no contents array, the Gemini translator's fast path returns the
payload with only the safety settings attached (every other field untouched,
no turn walking), while the grouping path fails: `fixCLIToolResponse` reports
the explicit `contents not found in input` error and the Antigravity
converter produces no payload at all. -/
theorem missing_contents_behavior (gen : Nat → String) (m : String)
    (req : GeminiRequest) (h : req.contents = none) :
    ConvertGeminiRequestToGemini gen m req = AttachDefaultSafetySettings req ∧
    (AttachDefaultSafetySettings req).contents = req.contents ∧
    (AttachDefaultSafetySettings req).system_instruction = req.system_instruction ∧
    (AttachDefaultSafetySettings req).systemInstruction = req.systemInstruction ∧
    (AttachDefaultSafetySettings req).tools = req.tools ∧
    (AttachDefaultSafetySettings req).responseSchema = req.responseSchema ∧
    (AttachDefaultSafetySettings req).responseJsonSchema = req.responseJsonSchema ∧
    (AttachDefaultSafetySettings req).model = req.model ∧
    fixCLIToolResponse { req with model := none } = .error "contents not found in input" ∧
    ConvertGeminiRequestToAntigravity gen m req = none := by
  refine ⟨?_, rfl, rfl, rfl, rfl, rfl, rfl, rfl, ?_, ?_⟩
  · unfold ConvertGeminiRequestToGemini
    rw [h]
  · unfold fixCLIToolResponse
    simp [h]
  · unfold ConvertGeminiRequestToAntigravity
    simp [fixCLIToolResponse, h]

/-- Witness for `missing_contents_behavior` at the empty request. -/
theorem missing_contents_behavior_witness :
    emptyReq.contents = none ∧
    ConvertGeminiRequestToAntigravity defaultGen "gemini-2.5-pro" emptyReq = none :=
  ⟨rfl,
   (missing_contents_behavior defaultGen "gemini-2.5-pro" emptyReq
      rfl).2.2.2.2.2.2.2.2.2⟩

/-- C4 (counterexample): in the Gemini-to-Gemini translator a model-turn
`functionCall` part already carrying the non-empty id `id1` is neither
recorded in the registry nor counted (the `if` has no registering else
branch), so the later id-less response to the same function at ordinal 0
stays id-less instead of receiving `id1`. -/
theorem gemini_linker_ignores_existing_id :
    ((mapState (geminiModelPart defaultGen) LinkState.init
        [callPart "foo" (some "id1")]).1).toolIDMap "foo" 0 = none ∧
    ((mapState (geminiModelPart defaultGen) LinkState.init
        [callPart "foo" (some "id1")]).1).callCount "foo" = 0 ∧
    ((respsOf ((ConvertGeminiRequestToGemini defaultGen "gemini-2.5-pro"
        reqC4).contents.getD []) "foo").map (fun r => r.id)) = [none] ∧
    (none : Option String) ≠ some "id1" := by
  exact ⟨by decide, by decide, by decide, by decide⟩

/-- C4 (amended): in the Antigravity translator a model-turn `functionCall`
part already carrying a non-empty id is left unchanged by the linker, but its
id is still recorded in the registry at `(name, callCount name)` and the
per-name call counter is incremented, so a later id-less response whose
`(name, respCount name)` lookup finds that registry entry receives exactly
that id; in the Gemini-to-Gemini translator such a part only receives the
sentinel — the registry, the counters and the rest of the state are left
untouched, so the pre-existing id never reaches a later response. -/
theorem linker_records_existing_id (gen : Nat → String) (st : LinkState) (p : Part)
    (c : FunctionCall) (hc : p.functionCall = some c) (hid : c.id.getD "" ≠ "") :
    (linkCallPart gen st p).2 = p ∧
    ((linkCallPart gen st p).1).toolIDMap c.name (st.callCount c.name) = some (c.id.getD "") ∧
    ((linkCallPart gen st p).1).callCount c.name = st.callCount c.name + 1 ∧
    (∀ (st2 : LinkState) (q : Part) (r : FunctionResponse),
      q.functionResponse = some r → r.id.getD "" = "" →
      st2.toolIDMap r.name (st2.respCount r.name) = some (c.id.getD "") →
      ((linkRespPart st2 q).2).functionResponse = some { r with id := some (c.id.getD "") }) ∧
    geminiModelPart gen st p = (st, { p with thoughtSignature := some skipSentinel }) := by
  refine ⟨?_, ?_, ?_, ?_, ?_⟩
  · unfold linkCallPart
    rw [hc]
    simp [hid]
  · unfold linkCallPart
    rw [hc]
    simp [hid]
  · unfold linkCallPart
    rw [hc]
    simp [hid]
  · intro st2 q r hq hrid hreg
    unfold linkRespPart
    rw [hq]
    simp [hrid, hreg]
  · unfold geminiModelPart
    rw [hc]
    dsimp only
    rw [if_neg hid]

/-- Witness for `linker_records_existing_id`: the registered pre-existing id
`id1` flows onto a later id-less response in the Antigravity linker, while
the Gemini part handler leaves the state untouched on the same part. -/
theorem linker_records_existing_id_witness :
    ((linkRespPart ((linkCallPart defaultGen LinkState.init
        (callPart "foo" (some "id1"))).1) (respPart "foo" none)).2).functionResponse =
      some { name := "foo", response := "ok", id := some "id1" } ∧
    geminiModelPart defaultGen LinkState.init (callPart "foo" (some "id1")) =
      (LinkState.init,
       { callPart "foo" (some "id1") with thoughtSignature := some skipSentinel }) := by
  have h := linker_records_existing_id defaultGen LinkState.init
    (callPart "foo" (some "id1")) { name := "foo", args := "{}", id := some "id1" }
    rfl (by decide)
  exact ⟨h.2.2.2.1 _ (respPart "foo" none) { name := "foo", response := "ok", id := none }
    rfl rfl (by decide), h.2.2.2.2⟩

/-- The two sentinel passes of the Antigravity reasoning-trace block compose
to the per-part summary `sentinelPartSpec`. -/
theorem sentinel_passes_eq_map_spec (parts : List Part) :
    sentinelThoughtPass (sentinelFunctionCallPass parts) = parts.map sentinelPartSpec := by
  unfold sentinelThoughtPass sentinelFunctionCallPass
  rw [List.map_map]
  apply List.map_congr_left
  intro p _
  simp only [Function.comp]
  by_cases hth : p.thought
  · by_cases hfc : p.functionCall.isSome
    · by_cases hsig : (p.thoughtSignature.getD "" = "" ∨
          (p.thoughtSignature.getD "").utf8ByteSize < 50)
      · simp [sentinelPartSpec, hth, hfc, hsig]
      · simp [sentinelPartSpec, hth, hfc, hsig]
    · simp [sentinelPartSpec, hth, hfc]
  · by_cases hfc : p.functionCall.isSome
    · by_cases hsig : (p.thoughtSignature.getD "" = "" ∨
          (p.thoughtSignature.getD "").utf8ByteSize < 50)
      · simp [sentinelPartSpec, hth, hfc, hsig]
      · simp [sentinelPartSpec, hth, hfc, hsig]
    · simp [sentinelPartSpec, hth, hfc]

/-- C5 (amended): in the Antigravity translator the reasoning-trace stage
behaves as claimed — no mutation at all for Claude models, and for other
models every model-turn thought part gets the sentinel unconditionally while
a `functionCall` part gets it exactly when its signature is empty or shorter
than 50 bytes; in the Gemini-to-Gemini translator, however, every model-turn
`functionCall` part receives the sentinel unconditionally, regardless of
existing signature length and of model family. -/
theorem sentinel_stage_behavior :
    (∀ (m : String) (ts : List Turn), classifyIsClaude m = true →
      applyThoughtSentinels m ts = ts) ∧
    (∀ (m : String) (ts : List Turn), classifyIsClaude m = false →
      applyThoughtSentinels m ts = ts.map (fun t =>
        if t.role = "model" then { t with parts := t.parts.map sentinelPartSpec } else t)) ∧
    (∀ (gen : Nat → String) (st : LinkState) (p : Part) (c : FunctionCall),
      p.functionCall = some c →
      ((geminiModelPart gen st p).2).thoughtSignature = some skipSentinel) := by
  refine ⟨?_, ?_, ?_⟩
  · intro m ts h
    simp [applyThoughtSentinels, h]
  · intro m ts h
    simp only [applyThoughtSentinels, h, Bool.false_eq_true, if_false]
    apply List.map_congr_left
    intro t _
    by_cases ht : t.role = "model"
    · simp [ht, sentinel_passes_eq_map_spec]
    · simp [ht]
  · intro gen st p c hc
    unfold geminiModelPart
    rw [hc]
    by_cases hid : c.id.getD "" = ""
    · simp [hid]
    · simp [hid]

/-- Witness for `sentinel_stage_behavior`: for a Claude model the stage is
the identity on a concrete conversation, and the concrete Gemini-translator
part with a long signature still gets the sentinel. -/
theorem sentinel_stage_behavior_witness :
    applyThoughtSentinels "claude-3-opus" [{ role := "model", parts := [callPart "f" none] }]
      = [{ role := "model", parts := [callPart "f" none] }] ∧
    ((geminiModelPart defaultGen LinkState.init
        { text := none, thought := false, thoughtSignature := some longSig,
          functionCall := some { name := "f", args := "{}", id := some "x" },
          functionResponse := none }).2).thoughtSignature = some skipSentinel :=
  ⟨sentinel_stage_behavior.1 "claude-3-opus" _ (by decide),
   sentinel_stage_behavior.2.2 defaultGen LinkState.init _
     { name := "f", args := "{}", id := some "x" } rfl⟩

/-- Concatenation distributes over list append. -/
theorem strConcat_append (a b : List String) :
    strConcat (a ++ b) = strConcat a ++ strConcat b := by
  induction a with
  | nil => simp [strConcat]
  | cons s l ih => simp [strConcat, ih, String.append_assoc]

/-- A concatenation is empty exactly when every piece is empty; stated via
the underlying character lists. -/
theorem strConcat_data (l : List String) :
    (strConcat l).data = (l.map String.data).flatten := by
  induction l with
  | nil => rfl
  | cons s t ih => simp [strConcat, ih]

/-- Dropping the parts with empty text before concatenating changes
nothing: the non-empty texts collected by the prefill block concatenate to
the concatenation of all parts' text fields. -/
theorem prefillTexts_concat (parts : List Part) :
    strConcat (prefillTexts parts) =
      strConcat (parts.map (fun p => p.text.getD "")) := by
  induction parts with
  | nil => rfl
  | cons p ps ih =>
    unfold prefillTexts at ih ⊢
    rw [List.filterMap_cons, List.map_cons]
    by_cases hp : p.text.getD "" = ""
    · simp only [hp, ne_eq, not_true_eq_false, if_false]
      rw [ih]
      show strConcat _ = "" ++ strConcat _
      rw [String.empty_append]
    · simp only [hp, ne_eq, not_false_iff, if_true]
      show (p.text.getD "") ++ strConcat _ = (p.text.getD "") ++ strConcat _
      rw [ih]

/-- The collected non-empty texts form a non-empty list exactly when the full
concatenation is non-empty. -/
theorem prefillTexts_length_pos_iff (parts : List Part) :
    0 < (prefillTexts parts).length ↔
      strConcat (parts.map (fun p => p.text.getD "")) ≠ "" := by
  induction parts with
  | nil => simp [prefillTexts, strConcat]
  | cons p ps ih =>
    unfold prefillTexts at ih ⊢
    rw [List.filterMap_cons, List.map_cons]
    by_cases hp : p.text.getD "" = ""
    · simp only [hp, ne_eq, not_true_eq_false, if_false]
      rw [ih]
      show _ ↔ "" ++ strConcat _ ≠ ""
      rw [String.empty_append]
    · simp only [hp, ne_eq, not_false_iff, if_true, List.length_cons]
      constructor
      · intro _ hcontra
        apply hp
        rw [show strConcat ((p.text.getD "") :: List.map (fun p => p.text.getD "") ps)
            = (p.text.getD "") ++ strConcat (List.map (fun p => p.text.getD "") ps)
          from rfl] at hcontra
        have hd := congrArg String.data hcontra
        rw [String.data_append] at hd
        exact String.ext (List.append_eq_nil.mp hd).1
      · intro _
        exact Nat.succ_pos _

/-- C8 (amended): for a Claude-family request the prefill block removes a
trailing model turn without `functionCall` parts and, when the concatenated
`text` fields of all its parts (thought parts included) are non-empty,
appends a single `Continue from:` user turn; a trailing model turn with a
`functionCall` part is untouched. -/
theorem prefill_apply_spec (ts : List Turn) :
    prefillApply ts = prefillClaimAmended ts := by
  unfold prefillApply prefillClaimAmended
  cases hl : ts.getLast? with
  | none => rfl
  | some lastT =>
    by_cases hm : lastT.role = "model"
    · by_cases hfc : turnHasFunctionCall lastT
      · simp [hm, hfc]
      · simp only [hm, if_pos, hfc, Bool.false_eq_true, if_false]
        rw [if_congr (prefillTexts_length_pos_iff lastT.parts)
          (by rw [prefillTexts_concat]) rfl]
    · simp [hm]

/-- When the newest-first scan finds no group, every pending group requires
more responses than the buffer holds. -/
theorem findLastSatisfiable_eq_none (groups : List FunctionCallGroup) (n : Nat)
    (h : findLastSatisfiable groups n = none) :
    ∀ (j : Nat) (g2 : FunctionCallGroup), groups[j]? = some g2 →
      n < g2.ResponsesNeeded := by
  induction groups with
  | nil =>
    intro j g2 hj
    simp at hj
  | cons a gs ih =>
    rw [findLastSatisfiable] at h
    cases hrec : findLastSatisfiable gs n with
    | some ig =>
      rw [hrec] at h
      cases h
    | none =>
      rw [hrec] at h
      by_cases hle : a.ResponsesNeeded ≤ n
      · rw [if_pos hle] at h
        cases h
      · intro j g2 hj
        cases j with
        | zero =>
          simp only [List.getElem?_cons_zero, Option.some.injEq] at hj
          subst hj
          omega
        | succ j' =>
          exact ih hrec j' g2 (by simpa using hj)

/-- The newest-first scan returns the satisfiable group of the largest index:
the returned index addresses the returned group, that group fits the buffer,
and every more recently created group does not. -/
theorem findLastSatisfiable_eq_some (groups : List FunctionCallGroup) (n : Nat)
    (i : Nat) (g : FunctionCallGroup)
    (h : findLastSatisfiable groups n = some (i, g)) :
    groups[i]? = some g ∧ g.ResponsesNeeded ≤ n ∧
      ∀ (j : Nat) (g2 : FunctionCallGroup), i < j → groups[j]? = some g2 →
        n < g2.ResponsesNeeded := by
  induction groups generalizing i g with
  | nil =>
    rw [findLastSatisfiable] at h
    cases h
  | cons a gs ih =>
    rw [findLastSatisfiable] at h
    cases hrec : findLastSatisfiable gs n with
    | some ig =>
      rw [hrec] at h
      injection h with h'
      have hi : ig.1 + 1 = i := congrArg Prod.fst h'
      have hg : ig.2 = g := congrArg Prod.snd h'
      subst hi
      subst hg
      obtain ⟨h1, h2, h3⟩ := ih ig.1 ig.2 (by rw [hrec])
      refine ⟨by simpa using h1, h2, ?_⟩
      intro j g2 hij hj
      cases j with
      | zero => omega
      | succ j' =>
        exact h3 j' g2 (by omega) (by simpa using hj)
    | none =>
      rw [hrec] at h
      by_cases hle : a.ResponsesNeeded ≤ n
      · rw [if_pos hle] at h
        injection h with h'
        have hi : (0 : Nat) = i := congrArg Prod.fst h'
        have hg : a = g := congrArg Prod.snd h'
        subst hi
        subst hg
        refine ⟨by simp, hle, ?_⟩
        intro j g2 hij hj
        cases j with
        | zero => omega
        | succ j' =>
          exact findLastSatisfiable_eq_none gs n hrec j' g2 (by simpa using hj)
      · rw [if_neg hle] at h
        cases h

/-- Erasing one index removes at most one element. -/
theorem length_le_eraseIdx_succ (l : List FunctionCallGroup) (i : Nat) :
    l.length ≤ (l.eraseIdx i).length + 1 := by
  rw [List.length_eraseIdx]
  split <;> omega

/-- C7: the grouper's main pass scans pending groups newest-first — the
resolved group is the satisfiable one of the largest index, with every more
recent group unsatisfiable (`findLastSatisfiable_eq_some`) and none resolved
when all are unsatisfiable (`findLastSatisfiable_eq_none`) — and resolves at
most one group per incoming turn, dequeuing from the buffer front; the final
flush instead walks the remaining groups in original creation order:
concretely, with pending groups needing 1 and 2 responses and two buffered
responses, the main pass resolves the newer group (needing 2) and consumes
both responses, while the flush serves the older group (needing 1) first and
leaves the second response behind. -/
theorem grouper_scan_newest_flush_oldest :
    (∀ (groups : List FunctionCallGroup) (n i : Nat) (g : FunctionCallGroup),
      findLastSatisfiable groups n = some (i, g) →
        groups[i]? = some g ∧ g.ResponsesNeeded ≤ n ∧
          ∀ (j : Nat) (g2 : FunctionCallGroup), i < j → groups[j]? = some g2 →
            n < g2.ResponsesNeeded) ∧
    (∀ (groups : List FunctionCallGroup) (n : Nat),
      findLastSatisfiable groups n = none →
        ∀ (j : Nat) (g2 : FunctionCallGroup), groups[j]? = some g2 →
          n < g2.ResponsesNeeded) ∧
    (∀ (st : GrouperState) (t : Turn),
      st.pending.length ≤ ((grouperStep st t).pending).length + 1) ∧
    ((grouperStep c7State c7Turn).pending = [{ ResponsesNeeded := 1 }] ∧
      (grouperStep c7State c7Turn).buffer = []) ∧
    ((flushGroups c7State.pending [respPart "a" none, respPart "b" none]).1
        = [{ role := "function", parts := [respPart "a" none] }] ∧
      (flushGroups c7State.pending [respPart "a" none, respPart "b" none]).2
        = [respPart "b" none]) := by
  refine ⟨findLastSatisfiable_eq_some, findLastSatisfiable_eq_none, ?_,
    ⟨by decide, by decide⟩, ⟨by decide, by decide⟩⟩
  intro st t
  unfold grouperStep
  by_cases hr : 0 < (responseParts t).length
  · rw [if_pos hr]
    cases hf : findLastSatisfiable st.pending (st.buffer ++ responseParts t).length with
    | some ig =>
      dsimp only
      by_cases hp : 0 < (((st.buffer ++ responseParts t).take ig.2.ResponsesNeeded).map
          parseFunctionResponseRaw).length
      · rw [if_pos hp]
        exact length_le_eraseIdx_succ _ _
      · rw [if_neg hp]
        exact length_le_eraseIdx_succ _ _
    | none =>
      dsimp only
      omega
  · rw [if_neg hr]
    by_cases hm : t.role = "model" ∧ 0 < functionCallsCount t
    · rw [if_pos hm]
      dsimp only
      simp only [List.length_append, List.length_cons, List.length_nil]
      omega
    · rw [if_neg hm]
      dsimp only
      omega

/-- Witness for `grouper_scan_newest_flush_oldest` at a concrete pending
list. -/
theorem grouper_scan_newest_flush_oldest_witness :
    ([{ ResponsesNeeded := 1 }, { ResponsesNeeded := 2 }] :
        List FunctionCallGroup)[1]? = some { ResponsesNeeded := 2 } ∧
    ({ ResponsesNeeded := 2 } : FunctionCallGroup).ResponsesNeeded ≤ 2 := by
  have h := grouper_scan_newest_flush_oldest.1
    [{ ResponsesNeeded := 1 }, { ResponsesNeeded := 2 }] 2 1
    { ResponsesNeeded := 2 } (by decide)
  exact ⟨h.1, h.2.1⟩

/-- Every part of a buffer holds a `functionResponse`. -/
def BufAllResp (buf : List Part) : Prop :=
  ∀ p ∈ buf, p.functionResponse.isSome = true

/-- The responses collected from a turn all hold a `functionResponse`. -/
theorem responseParts_all (t : Turn) :
    ∀ p ∈ responseParts t, p.functionResponse.isSome = true := by
  intro p hp
  exact (List.mem_filter.mp hp).2

/-- `parseFunctionResponseRaw` maps to the identity on structured parts. -/
theorem map_parse_id (l : List Part) : l.map parseFunctionResponseRaw = l := by
  induction l with
  | nil => rfl
  | cons a l ih =>
    rw [List.map_cons, ih]
    rfl

/-- `totalResponses` distributes over append. -/
theorem totalResponses_append (a b : List Turn) :
    totalResponses (a ++ b) = totalResponses a + totalResponses b := by
  unfold totalResponses
  rw [List.map_append, List.sum_append]

/-- `totalResponses` of a single turn. -/
theorem totalResponses_singleton (t : Turn) :
    totalResponses [t] = (responseParts t).length := by
  unfold totalResponses
  simp

/-- `totalResponses` of a cons. -/
theorem totalResponses_cons (t : Turn) (ts : List Turn) :
    totalResponses (t :: ts) = (responseParts t).length + totalResponses ts := by
  unfold totalResponses
  rw [List.map_cons, List.sum_cons]

/-- A grouping turn built from response-only parts contributes exactly its
part count to `totalResponses`. -/
theorem responseParts_groupTurn (ps : List Part)
    (h : ∀ p ∈ ps, p.functionResponse.isSome = true) :
    responseParts (groupTurn ps) = ps := by
  unfold responseParts groupTurn
  exact List.filter_eq_self.mpr h

/-- The buffer of the grouper only ever holds response parts. -/
theorem grouperStep_buf (st : GrouperState) (t : Turn) (hb : BufAllResp st.buffer) :
    BufAllResp (grouperStep st t).buffer := by
  have hbuf : BufAllResp (st.buffer ++ responseParts t) := by
    intro p hp
    rcases List.mem_append.mp hp with h | h
    · exact hb p h
    · exact responseParts_all t p h
  unfold grouperStep
  by_cases hr : 0 < (responseParts t).length
  · rw [if_pos hr]
    cases hf : findLastSatisfiable st.pending (st.buffer ++ responseParts t).length with
    | some ig =>
      dsimp only
      by_cases hp : 0 < (((st.buffer ++ responseParts t).take ig.2.ResponsesNeeded).map
          parseFunctionResponseRaw).length
      · rw [if_pos hp]
        exact fun p hp' => hbuf p (List.drop_subset _ _ hp')
      · rw [if_neg hp]
        exact fun p hp' => hbuf p (List.drop_subset _ _ hp')
    | none =>
      dsimp only
      exact hbuf
  · rw [if_neg hr]
    by_cases hm : t.role = "model" ∧ 0 < functionCallsCount t
    · rw [if_pos hm]
      exact hb
    · rw [if_neg hm]
      exact hb

/-- One grouper step balances the response count: output responses plus
buffered responses grow by exactly the incoming turn's response parts. -/
theorem grouperStep_balance (st : GrouperState) (t : Turn) (hb : BufAllResp st.buffer) :
    totalResponses (grouperStep st t).out + (grouperStep st t).buffer.length =
      totalResponses st.out + st.buffer.length + (responseParts t).length := by
  have hbuf : BufAllResp (st.buffer ++ responseParts t) := by
    intro p hp
    rcases List.mem_append.mp hp with h | h
    · exact hb p h
    · exact responseParts_all t p h
  unfold grouperStep
  by_cases hr : 0 < (responseParts t).length
  · rw [if_pos hr]
    cases hf : findLastSatisfiable st.pending (st.buffer ++ responseParts t).length with
    | some ig =>
      have hle : ig.2.ResponsesNeeded ≤ (st.buffer ++ responseParts t).length :=
        (findLastSatisfiable_eq_some st.pending _ ig.1 ig.2 (by rw [hf])).2.1
      dsimp only
      by_cases hp : 0 < (((st.buffer ++ responseParts t).take ig.2.ResponsesNeeded).map
          parseFunctionResponseRaw).length
      · rw [if_pos hp]
        dsimp only
        rw [totalResponses_append, totalResponses_singleton]
        have hresp : responseParts (groupTurn (((st.buffer ++ responseParts t).take
            ig.2.ResponsesNeeded).map parseFunctionResponseRaw)) =
            ((st.buffer ++ responseParts t).take ig.2.ResponsesNeeded).map
              parseFunctionResponseRaw := by
          apply responseParts_groupTurn
          intro p hp'
          rw [map_parse_id] at hp'
          exact hbuf p (List.take_subset _ _ hp')
        rw [hresp, List.length_map, List.length_take_of_le hle, List.length_drop,
          List.length_append]
        rw [List.length_append] at hle
        omega
      · rw [if_neg hp]
        dsimp only
        have h0 : ig.2.ResponsesNeeded = 0 := by
          rw [List.length_map, List.length_take_of_le hle] at hp
          omega
        rw [h0, List.drop_zero, List.length_append]
        omega
    | none =>
      dsimp only
      rw [List.length_append]
      omega
  · rw [if_neg hr]
    by_cases hm : t.role = "model" ∧ 0 < functionCallsCount t
    · rw [if_pos hm]
      dsimp only
      rw [totalResponses_append, totalResponses_singleton]
      omega
    · rw [if_neg hm]
      dsimp only
      rw [totalResponses_append, totalResponses_singleton]
      omega

/-- The main-loop fold balances the response count and keeps the buffer
response-only. -/
theorem grouperFold_balance (ts : List Turn) (st : GrouperState) (hb : BufAllResp st.buffer) :
    (totalResponses (ts.foldl grouperStep st).out + (ts.foldl grouperStep st).buffer.length =
      totalResponses st.out + st.buffer.length + totalResponses ts) ∧
    BufAllResp (ts.foldl grouperStep st).buffer := by
  induction ts generalizing st with
  | nil =>
    refine ⟨?_, hb⟩
    unfold totalResponses
    simp
  | cons t ts ih =>
    rw [List.foldl_cons]
    obtain ⟨ihb, ihr⟩ := ih (grouperStep st t) (grouperStep_buf st t hb)
    refine ⟨?_, ihr⟩
    rw [ihb, grouperStep_balance st t hb, totalResponses_cons]
    omega

/-- The flush emits exactly the responses it consumes: emitted responses plus
the leftover buffer account for the whole incoming buffer. -/
theorem flushGroups_balance (gs : List FunctionCallGroup) (buf : List Part)
    (hb : BufAllResp buf) :
    totalResponses (flushGroups gs buf).1 + (flushGroups gs buf).2.length = buf.length := by
  induction gs generalizing buf with
  | nil =>
    unfold flushGroups totalResponses
    simp
  | cons g gs ih =>
    unfold flushGroups
    by_cases hle : g.ResponsesNeeded ≤ buf.length
    · rw [if_pos hle]
      dsimp only
      have hbd : BufAllResp (buf.drop g.ResponsesNeeded) :=
        fun p hp => hb p (List.drop_subset _ _ hp)
      by_cases hp : 0 < ((buf.take g.ResponsesNeeded).map parseFunctionResponseRaw).length
      · rw [if_pos hp]
        rw [List.singleton_append, totalResponses_cons]
        have hresp : responseParts (groupTurn ((buf.take g.ResponsesNeeded).map
            parseFunctionResponseRaw)) =
            (buf.take g.ResponsesNeeded).map parseFunctionResponseRaw := by
          apply responseParts_groupTurn
          intro p hp'
          rw [map_parse_id] at hp'
          exact hb p (List.take_subset _ _ hp')
        rw [hresp, List.length_map, List.length_take_of_le hle]
        have hrec := ih (buf.drop g.ResponsesNeeded) hbd
        rw [List.length_drop] at hrec
        omega
      · rw [if_neg hp]
        rw [List.nil_append]
        have h0 : g.ResponsesNeeded = 0 := by
          rw [List.length_map, List.length_take_of_le hle] at hp
          omega
        rw [h0, List.drop_zero]
        exact ih buf hb
    · rw [if_neg hle]
      exact ih buf hb

/-- C2 (amended): the Conversation Grouper preserves `FunctionResponse`
parts up to the final leftover: the output's response-part count plus the
number of responses still buffered after the flush equals the input's
response-part count (unmatched leftovers, and the non-response parts of
response-bearing turns, are dropped). -/
theorem grouper_response_count_balance (ts : List Turn) :
    totalResponses (fixCLIContents ts) + (groupLeftover ts).length = totalResponses ts := by
  unfold fixCLIContents groupLeftover
  rw [totalResponses_append]
  obtain ⟨hbal, hb⟩ := grouperFold_balance ts GrouperState.start (by intro p hp; cases hp)
  have hflush := flushGroups_balance
    (ts.foldl grouperStep GrouperState.start).pending
    (ts.foldl grouperStep GrouperState.start).buffer hb
  have h1 : totalResponses GrouperState.start.out = 0 := rfl
  have h2 : GrouperState.start.buffer.length = 0 := rfl
  rw [h1, h2] at hbal
  omega

/-- Every turn of a grouper step's output is an input turn or a well-formed
grouping turn. -/
theorem grouperStep_out_mem (st : GrouperState) (t : Turn) (hb : BufAllResp st.buffer) :
    ∀ u ∈ (grouperStep st t).out, u ∈ st.out ∨ u = t ∨ GoodGroupTurn u := by
  have hbuf : BufAllResp (st.buffer ++ responseParts t) := by
    intro p hp
    rcases List.mem_append.mp hp with h | h
    · exact hb p h
    · exact responseParts_all t p h
  unfold grouperStep
  by_cases hr : 0 < (responseParts t).length
  · rw [if_pos hr]
    cases hf : findLastSatisfiable st.pending (st.buffer ++ responseParts t).length with
    | some ig =>
      dsimp only
      by_cases hp : 0 < (((st.buffer ++ responseParts t).take ig.2.ResponsesNeeded).map
          parseFunctionResponseRaw).length
      · rw [if_pos hp]
        intro u hu
        rcases List.mem_append.mp hu with h | h
        · exact Or.inl h
        · right; right
          rw [List.mem_singleton.mp h]
          refine ⟨rfl, ?_, ?_⟩
          · intro hnil
            have hxe : (((st.buffer ++ responseParts t).take ig.2.ResponsesNeeded).map
                parseFunctionResponseRaw) = [] := hnil
            rw [hxe] at hp
            simp at hp
          · intro p hp'
            have hp'' : p ∈ (st.buffer ++ responseParts t).take ig.2.ResponsesNeeded := by
              have hp2 : p ∈ ((st.buffer ++ responseParts t).take ig.2.ResponsesNeeded).map
                  parseFunctionResponseRaw := hp'
              rw [map_parse_id] at hp2
              exact hp2
            exact hbuf p (List.take_subset _ _ hp'')
      · rw [if_neg hp]
        intro u hu
        exact Or.inl hu
    | none =>
      dsimp only
      intro u hu
      exact Or.inl hu
  · rw [if_neg hr]
    by_cases hm : t.role = "model" ∧ 0 < functionCallsCount t
    · rw [if_pos hm]
      intro u hu
      rcases List.mem_append.mp hu with h | h
      · exact Or.inl h
      · exact Or.inr (Or.inl (List.mem_singleton.mp h))
    · rw [if_neg hm]
      intro u hu
      rcases List.mem_append.mp hu with h | h
      · exact Or.inl h
      · exact Or.inr (Or.inl (List.mem_singleton.mp h))

/-- Main-loop version of `grouperStep_out_mem`. -/
theorem grouperFold_out_mem (ts : List Turn) (st : GrouperState) (hb : BufAllResp st.buffer) :
    ∀ u ∈ (ts.foldl grouperStep st).out, u ∈ st.out ∨ u ∈ ts ∨ GoodGroupTurn u := by
  induction ts generalizing st with
  | nil =>
    intro u hu
    exact Or.inl hu
  | cons t ts ih =>
    rw [List.foldl_cons]
    intro u hu
    rcases ih (grouperStep st t) (grouperStep_buf st t hb) u hu with h | h | h
    · rcases grouperStep_out_mem st t hb u h with h' | h' | h'
      · exact Or.inl h'
      · exact Or.inr (Or.inl (h' ▸ List.mem_cons_self t ts))
      · exact Or.inr (Or.inr h')
    · exact Or.inr (Or.inl (List.mem_cons_of_mem t h))
    · exact Or.inr (Or.inr h)

/-- Every turn the flush emits is a well-formed grouping turn. -/
theorem flushGroups_out_good (gs : List FunctionCallGroup) (buf : List Part)
    (hb : BufAllResp buf) :
    ∀ u ∈ (flushGroups gs buf).1, GoodGroupTurn u := by
  induction gs generalizing buf with
  | nil =>
    intro u hu
    cases hu
  | cons g gs ih =>
    unfold flushGroups
    by_cases hle : g.ResponsesNeeded ≤ buf.length
    · rw [if_pos hle]
      dsimp only
      have hbd : BufAllResp (buf.drop g.ResponsesNeeded) :=
        fun p hp => hb p (List.drop_subset _ _ hp)
      by_cases hp : 0 < ((buf.take g.ResponsesNeeded).map parseFunctionResponseRaw).length
      · rw [if_pos hp]
        intro u hu
        rcases List.mem_append.mp hu with h | h
        · rw [List.mem_singleton.mp h]
          refine ⟨rfl, ?_, ?_⟩
          · intro hnil
            have hxe : ((buf.take g.ResponsesNeeded).map parseFunctionResponseRaw) = [] := hnil
            rw [hxe] at hp
            simp at hp
          · intro p hp'
            have hp'' : p ∈ buf.take g.ResponsesNeeded := by
              have hp2 : p ∈ (buf.take g.ResponsesNeeded).map parseFunctionResponseRaw := hp'
              rw [map_parse_id] at hp2
              exact hp2
            exact hb p (List.take_subset _ _ hp'')
        · exact ih (buf.drop g.ResponsesNeeded) hbd u h
      · rw [if_neg hp]
        rw [List.nil_append]
        exact ih (buf.drop g.ResponsesNeeded) hbd
    · rw [if_neg hle]
      exact ih buf hb

/-- C10: every turn emitted by the Conversation Grouper is either an input
turn passed through unchanged or a synthesized grouping turn carrying role
`function`, at least one part, and only `functionResponse` parts — the
grouper never emits an empty grouping turn. -/
theorem grouping_turns_wellformed (ts : List Turn) (t : Turn)
    (h : t ∈ fixCLIContents ts) : t ∈ ts ∨ GoodGroupTurn t := by
  unfold fixCLIContents at h
  obtain ⟨-, hb⟩ := grouperFold_balance ts GrouperState.start (by intro p hp; cases hp)
  rcases List.mem_append.mp h with h' | h'
  · rcases grouperFold_out_mem ts GrouperState.start
      (by intro p hp; cases hp) t h' with h'' | h'' | h''
    · cases h''
    · exact Or.inl h''
    · exact Or.inr h''
  · exact Or.inr (flushGroups_out_good _ _ hb t h')

/-- `LinkInv` respects pointwise-equal sequence functions. -/
theorem LinkInv_congr (st : LinkState) (c1 c2 : String → List FunctionCall)
    (r1 r2 : String → List FunctionResponse)
    (hc : ∀ f, c1 f = c2 f) (hr : ∀ f, r1 f = r2 f)
    (h : LinkInv st c1 r1) : LinkInv st c2 r2 := by
  obtain ⟨h1, h2, h3, h4⟩ := h
  refine ⟨?_, ?_, ?_, ?_⟩
  · intro f
    rw [← hc f]
    exact h1 f
  · intro f j
    rw [← hc f]
    exact h2 f j
  · intro f
    rw [← hr f]
    exact h3 f
  · intro f k r hk
    rw [← hr f] at hk
    exact h4 f k r hk

/-- Unfolding of `mapState` on a cons. -/
theorem mapState_cons (f : σ → α → σ × α) (s : σ) (a : α) (as : List α) :
    mapState f s (a :: as) =
      ((mapState f (f s a).1 as).1, (f s a).2 :: (mapState f (f s a).1 as).2) := by
  rfl

/-- Extending the registry at the fresh ordinal `(name, callCount name)` with
the id of an output call preserves the linker invariant, appending that call
to the per-name call sequence. -/
theorem registry_extend_inv (st : LinkState) (calls : String → List FunctionCall)
    (resps : String → List FunctionResponse) (hinv : LinkInv st calls resps)
    (c' : FunctionCall) (st' : LinkState)
    (hcc : st'.callCount =
      fun x => if x = c'.name then st.callCount c'.name + 1 else st.callCount x)
    (hmap : st'.toolIDMap =
      fun x j => if x = c'.name ∧ j = st.callCount c'.name then some (c'.id.getD "")
        else st.toolIDMap x j)
    (hrc : st'.respCount = st.respCount) :
    LinkInv st' (fun f => calls f ++ (if c'.name = f then [c'] else [])) resps := by
  obtain ⟨h1, h2, h3, h4⟩ := hinv
  have hnone : st.toolIDMap c'.name (st.callCount c'.name) = none := by
    rw [h2, h1, List.getElem?_eq_none (Nat.le_refl _)]
    rfl
  refine ⟨?_, ?_, ?_, ?_⟩
  · intro f
    rw [hcc]
    dsimp only
    by_cases hf : f = c'.name
    · rw [if_pos hf, hf, if_pos rfl, List.length_append, h1]
      simp
    · rw [if_neg hf, if_neg (fun h : c'.name = f => hf h.symm), List.append_nil]
      exact h1 f
  · intro f j
    rw [hmap]
    dsimp only
    by_cases hf : f = c'.name
    · rw [hf, if_pos rfl]
      by_cases hj : j = st.callCount c'.name
      · rw [if_pos ⟨rfl, hj⟩, hj, h1,
          List.getElem?_append_right (Nat.le_refl _), Nat.sub_self]
        rfl
      · rw [if_neg (fun h => hj h.2), h2 c'.name j]
        rcases Nat.lt_or_ge j (calls c'.name).length with hlt | hge
        · rw [List.getElem?_append_left hlt]
        · have hlen : st.callCount c'.name = (calls c'.name).length := h1 c'.name
          rw [List.getElem?_eq_none hge, List.getElem?_eq_none
            (by rw [List.length_append, List.length_cons, List.length_nil]; omega)]
    · rw [if_neg (fun h => hf h.1), if_neg (fun h : c'.name = f => hf h.symm),
        List.append_nil]
      exact h2 f j
  · intro f
    rw [hrc]
    exact h3 f
  · intro f k r hk
    rcases h4 f k r hk with h | h
    · exact Or.inl h
    · right
      rw [hmap]
      dsimp only
      by_cases hcond : f = c'.name ∧ k = st.callCount c'.name
      · exfalso
        rw [hcond.1, hcond.2, hnone] at h
        cases h
      · rw [if_neg hcond]
        exact h

/-- Processing one part of a model turn preserves the linker invariant,
extending the call sequences by the part's (possibly freshly id-ed) output
call. -/
theorem linkCallPart_inv (gen : Nat → String) (st : LinkState) (p : Part)
    (calls : String → List FunctionCall) (resps : String → List FunctionResponse)
    (hinv : LinkInv st calls resps) :
    LinkInv (linkCallPart gen st p).1
      (fun f => calls f ++ partCalls (linkCallPart gen st p).2 f) resps := by
  cases hp : p.functionCall with
  | none =>
    have he : linkCallPart gen st p = (st, p) := by
      unfold linkCallPart
      rw [hp]
    rw [he]
    refine LinkInv_congr st calls _ resps resps (fun f => ?_) (fun f => rfl) hinv
    simp [partCalls, hp]
  | some c =>
    by_cases hid : c.id.getD "" = ""
    · have he : linkCallPart gen st p =
          ({ st with
              callCount := fun x =>
                if x = c.name then st.callCount c.name + 1 else st.callCount x,
              toolIDMap := fun x j =>
                if x = c.name ∧ j = st.callCount c.name then some (gen st.nextID)
                else st.toolIDMap x j,
              nextID := st.nextID + 1 },
           { p with functionCall := some { c with id := some (gen st.nextID) } }) := by
        unfold linkCallPart
        rw [hp]
        dsimp only
        rw [if_pos hid]
      rw [he]
      have hext := registry_extend_inv st calls resps hinv
        { c with id := some (gen st.nextID) }
        { st with
            callCount := fun x =>
              if x = c.name then st.callCount c.name + 1 else st.callCount x,
            toolIDMap := fun x j =>
              if x = c.name ∧ j = st.callCount c.name then some (gen st.nextID)
              else st.toolIDMap x j,
            nextID := st.nextID + 1 } rfl rfl rfl
      refine LinkInv_congr _ _ _ resps resps (fun f => ?_) (fun f => rfl) hext
      simp [partCalls]
    · have he : linkCallPart gen st p =
          ({ st with
              callCount := fun x =>
                if x = c.name then st.callCount c.name + 1 else st.callCount x,
              toolIDMap := fun x j =>
                if x = c.name ∧ j = st.callCount c.name then some (c.id.getD "")
                else st.toolIDMap x j },
           p) := by
        unfold linkCallPart
        rw [hp]
        dsimp only
        rw [if_neg hid]
      rw [he]
      have hext := registry_extend_inv st calls resps hinv c
        { st with
            callCount := fun x =>
              if x = c.name then st.callCount c.name + 1 else st.callCount x,
            toolIDMap := fun x j =>
              if x = c.name ∧ j = st.callCount c.name then some (c.id.getD "")
              else st.toolIDMap x j } rfl rfl rfl
      refine LinkInv_congr _ _ _ resps resps (fun f => ?_) (fun f => rfl) hext
      simp [partCalls, hp]

/-- Processing one id-less-response part of a `user`/`function` turn
preserves the linker invariant, extending the response sequences by the
part's output response. -/
theorem linkRespPart_inv (st : LinkState) (p : Part)
    (calls : String → List FunctionCall) (resps : String → List FunctionResponse)
    (hinv : LinkInv st calls resps)
    (hid : (p.functionResponse.map (fun r => r.id.getD "")).getD "" = "") :
    LinkInv (linkRespPart st p).1 calls
      (fun f => resps f ++ partResps (linkRespPart st p).2 f) := by
  obtain ⟨h1, h2, h3, h4⟩ := hinv
  cases hp : p.functionResponse with
  | none =>
    have he : linkRespPart st p = (st, p) := by
      unfold linkRespPart
      rw [hp]
    rw [he]
    refine LinkInv_congr st calls calls resps _ (fun f => rfl) (fun f => ?_)
      ⟨h1, h2, h3, h4⟩
    simp [partResps, hp]
  | some r =>
    have hrid : r.id.getD "" = "" := by
      rw [hp] at hid
      simpa using hid
    cases hlook : st.toolIDMap r.name (st.respCount r.name) with
    | some i =>
      have he : linkRespPart st p =
          ({ st with respCount := fun x =>
              if x = r.name then st.respCount r.name + 1 else st.respCount x },
           { p with functionResponse := some { r with id := some i } }) := by
        unfold linkRespPart
        rw [hp]
        dsimp only
        rw [if_pos hrid, hlook]
      rw [he]
      have hpr : ∀ f,
          partResps { p with functionResponse := some { r with id := some i } } f =
            if r.name = f then [{ r with id := some i }] else [] :=
        fun f => rfl
      refine ⟨h1, h2, ?_, ?_⟩
      · intro f
        dsimp only
        rw [hpr f]
        by_cases hf : f = r.name
        · rw [if_pos hf, hf, if_pos rfl, List.length_append, h3]
          simp
        · rw [if_neg hf, if_neg (fun h : r.name = f => hf h.symm), List.append_nil]
          exact h3 f
      · intro f k r2 hk
        dsimp only at hk ⊢
        rw [hpr f] at hk
        by_cases hf : r.name = f
        · rw [if_pos hf] at hk
          rcases Nat.lt_or_ge k (resps f).length with hlt | hge
          · rw [List.getElem?_append_left hlt] at hk
            exact h4 f k r2 hk
          · rcases Nat.eq_or_lt_of_le hge with heq | hgt
            · rw [List.getElem?_append_right hge, ← heq, Nat.sub_self] at hk
              have hr2 : r2 = { r with id := some i } := by
                injection hk with hk2
                exact hk2.symm
              right
              rw [hr2]
              show st.toolIDMap f k = some i
              have hkk : k = st.respCount r.name := by
                rw [h3 r.name, hf]
                exact heq.symm
              rw [← hf, hkk, hlook]
            · rw [List.getElem?_eq_none
                (by simp only [List.length_append, List.length_cons,
                  List.length_nil]; omega)] at hk
              cases hk
        · rw [if_neg hf, List.append_nil] at hk
          exact h4 f k r2 hk
    | none =>
      have he : linkRespPart st p =
          ({ st with respCount := fun x =>
              if x = r.name then st.respCount r.name + 1 else st.respCount x },
           p) := by
        unfold linkRespPart
        rw [hp]
        dsimp only
        rw [if_pos hrid, hlook]
      rw [he]
      have hpr : ∀ f, partResps p f = if r.name = f then [r] else [] := by
        intro f
        simp [partResps, hp]
      refine ⟨h1, h2, ?_, ?_⟩
      · intro f
        dsimp only
        rw [hpr f]
        by_cases hf : f = r.name
        · rw [if_pos hf, hf, if_pos rfl, List.length_append, h3]
          simp
        · rw [if_neg hf, if_neg (fun h : r.name = f => hf h.symm), List.append_nil]
          exact h3 f
      · intro f k r2 hk
        dsimp only at hk ⊢
        rw [hpr f] at hk
        by_cases hf : r.name = f
        · rw [if_pos hf] at hk
          rcases Nat.lt_or_ge k (resps f).length with hlt | hge
          · rw [List.getElem?_append_left hlt] at hk
            exact h4 f k r2 hk
          · rcases Nat.eq_or_lt_of_le hge with heq | hgt
            · rw [List.getElem?_append_right hge, ← heq, Nat.sub_self] at hk
              have hr2 : r2 = r := by
                injection hk with hk2
                exact hk2.symm
              left
              rw [hr2]
              exact hrid
            · rw [List.getElem?_eq_none
                (by simp only [List.length_append, List.length_cons,
                  List.length_nil]; omega)] at hk
              cases hk
        · rw [if_neg hf, List.append_nil] at hk
          exact h4 f k r2 hk

/-- The linker's walk over a model turn's parts preserves the invariant,
appending all output calls in part order. -/
theorem mapState_callParts_inv (gen : Nat → String) (ps : List Part) (st : LinkState)
    (calls : String → List FunctionCall) (resps : String → List FunctionResponse)
    (hinv : LinkInv st calls resps) :
    LinkInv (mapState (linkCallPart gen) st ps).1
      (fun f => calls f ++
        (((mapState (linkCallPart gen) st ps).2.map (fun p => partCalls p f)).flatten))
      resps := by
  induction ps generalizing st calls with
  | nil =>
    refine LinkInv_congr st calls _ resps resps (fun f => ?_) (fun f => rfl) hinv
    simp [mapState]
  | cons p ps ih =>
    rw [mapState_cons]
    have hstep := linkCallPart_inv gen st p calls resps hinv
    have hrec := ih (linkCallPart gen st p).1 _ hstep
    refine LinkInv_congr _ _ _ resps resps (fun f => ?_) (fun f => rfl) hrec
    dsimp only
    rw [List.map_cons, List.flatten_cons, ← List.append_assoc]

/-- The linker's walk over a `user`/`function` turn's parts preserves the
invariant, appending all output responses in part order, provided the input
responses are id-less. -/
theorem mapState_respParts_inv (ps : List Part) (st : LinkState)
    (calls : String → List FunctionCall) (resps : String → List FunctionResponse)
    (hinv : LinkInv st calls resps)
    (hid : ∀ p ∈ ps, (p.functionResponse.map (fun r => r.id.getD "")).getD "" = "") :
    LinkInv (mapState linkRespPart st ps).1 calls
      (fun f => resps f ++
        (((mapState linkRespPart st ps).2.map (fun p => partResps p f)).flatten)) := by
  induction ps generalizing st resps with
  | nil =>
    refine LinkInv_congr st calls calls resps _ (fun f => rfl) (fun f => ?_) hinv
    simp [mapState]
  | cons p ps ih =>
    rw [mapState_cons]
    have hstep := linkRespPart_inv st p calls resps hinv
      (hid p (List.mem_cons_self p ps))
    have hrec := ih (linkRespPart st p).1 _ hstep
      (fun q hq => hid q (List.mem_cons_of_mem p hq))
    refine LinkInv_congr _ calls calls _ _ (fun f => rfl) (fun f => ?_) hrec
    dsimp only
    rw [List.map_cons, List.flatten_cons, ← List.append_assoc]

/-- Processing one whole turn preserves the invariant, appending the turn's
output calls and responses to the per-name sequences. -/
theorem linkTurn_inv (gen : Nat → String) (st : LinkState) (t : Turn)
    (calls : String → List FunctionCall) (resps : String → List FunctionResponse)
    (hinv : LinkInv st calls resps)
    (hid : (t.role = "user" ∨ t.role = "function") →
      ∀ p ∈ t.parts, (p.functionResponse.map (fun r => r.id.getD "")).getD "" = "") :
    LinkInv (linkTurn gen st t).1
      (fun f => calls f ++ turnCalls (linkTurn gen st t).2 f)
      (fun f => resps f ++ turnResps (linkTurn gen st t).2 f) := by
  unfold linkTurn
  by_cases hm : t.role = "model"
  · rw [if_pos hm]
    dsimp only
    have h := mapState_callParts_inv gen t.parts st calls resps hinv
    refine LinkInv_congr _ _ _ _ _ (fun f => ?_) (fun f => ?_) h
    · simp [turnCalls, hm]
    · simp [turnResps, hm]
  · rw [if_neg hm]
    by_cases hu : t.role = "user" ∨ t.role = "function"
    · rw [if_pos hu]
      dsimp only
      have h := mapState_respParts_inv t.parts st calls resps hinv (hid hu)
      refine LinkInv_congr _ _ _ _ _ (fun f => ?_) (fun f => ?_) h
      · simp [turnCalls, hm]
      · simp [turnResps, hu]
    · rw [if_neg hu]
      refine LinkInv_congr st calls _ resps _ (fun f => ?_) (fun f => ?_) hinv
      · simp [turnCalls, hm]
      · simp [turnResps, hu]

/-- `callsOf` on a cons. -/
theorem callsOf_cons (t : Turn) (ts : List Turn) (f : String) :
    callsOf (t :: ts) f = turnCalls t f ++ callsOf ts f := by
  unfold callsOf
  rw [List.map_cons, List.flatten_cons]

/-- `respsOf` on a cons. -/
theorem respsOf_cons (t : Turn) (ts : List Turn) (f : String) :
    respsOf (t :: ts) f = turnResps t f ++ respsOf ts f := by
  unfold respsOf
  rw [List.map_cons, List.flatten_cons]

/-- The linker's walk over the whole conversation preserves the invariant,
appending the per-name call and response sequences of the produced output. -/
theorem mapState_linkTurn_inv (gen : Nat → String) (ts : List Turn) (st : LinkState)
    (calls : String → List FunctionCall) (resps : String → List FunctionResponse)
    (hinv : LinkInv st calls resps) (hresp : RespIdless ts) :
    LinkInv (mapState (linkTurn gen) st ts).1
      (fun f => calls f ++ callsOf (mapState (linkTurn gen) st ts).2 f)
      (fun f => resps f ++ respsOf (mapState (linkTurn gen) st ts).2 f) := by
  induction ts generalizing st calls resps with
  | nil =>
    refine LinkInv_congr st calls _ resps _ (fun f => ?_) (fun f => ?_) hinv <;>
      simp [mapState, callsOf, respsOf]
  | cons t ts ih =>
    rw [mapState_cons]
    have hid : (t.role = "user" ∨ t.role = "function") →
        ∀ p ∈ t.parts, (p.functionResponse.map (fun r => r.id.getD "")).getD "" = "" :=
      fun hrole p hp => hresp t (List.mem_cons_self t ts) hrole p hp
    have hstep := linkTurn_inv gen st t calls resps hinv hid
    have htail : RespIdless ts := fun u hu => hresp u (List.mem_cons_of_mem t hu)
    have hrec := ih (linkTurn gen st t).1 _ _ hstep htail
    refine LinkInv_congr _ _ _ _ _ (fun f => ?_) (fun f => ?_) hrec <;>
      dsimp only
    · rw [callsOf_cons, ← List.append_assoc]
    · rw [respsOf_cons, ← List.append_assoc]

/-- C1 (amended): when every response of the conversation is initially
id-less, the Tool-Call Linker pairs strictly by per-name FIFO ordinal: the
k-th response naming `f` (in turn order over `user`/`function` turns) either
carries exactly the id of the k-th call naming `f` in the linked output, or
carries no id at all — the latter happening when the k-th call has not yet
been registered when the response is processed (e.g. a response occurring in
an earlier turn than its call); a response never receives the id of any other
ordinal. -/
theorem toolCallLink_fifo_pairing (gen : Nat → String) (ts : List Turn)
    (hresp : RespIdless ts) (f : String) (k : Nat)
    (c : FunctionCall) (r : FunctionResponse)
    (hc : (callsOf (toolCallLink gen ts) f)[k]? = some c)
    (hr : (respsOf (toolCallLink gen ts) f)[k]? = some r) :
    r.id.getD "" = c.id.getD "" ∨ r.id.getD "" = "" := by
  have hinit : LinkInv LinkState.init (fun _ => []) (fun _ => []) := by
    refine ⟨fun f => rfl, fun f j => rfl, fun f => rfl, ?_⟩
    intro f k r hk
    cases hk
  have h := mapState_linkTurn_inv gen ts LinkState.init
    (fun _ => []) (fun _ => []) hinit hresp
  obtain ⟨h1, h2, h3, h4⟩ := h
  unfold toolCallLink at hc hr
  have hc' : ((fun f => ([] : List FunctionCall) ++
      callsOf (mapState (linkTurn gen) LinkState.init ts).2 f) f)[k]? = some c := by
    dsimp only
    rw [List.nil_append]
    exact hc
  have hr' : ((fun f => ([] : List FunctionResponse) ++
      respsOf (mapState (linkTurn gen) LinkState.init ts).2 f) f)[k]? = some r := by
    dsimp only
    rw [List.nil_append]
    exact hr
  rcases h4 f k r hr' with h | h
  · exact Or.inr h
  · left
    rw [h2 f k, hc'] at h
    injection h with h'
    exact h'.symm

/-- Witness for `toolCallLink_fifo_pairing`: in the two-calls-then-two-
responses conversation, the second response receives exactly the second
call's id. -/
theorem toolCallLink_fifo_pairing_witness :
    RespIdless c1P4 ∧
    (({ name := "foo", response := "ok", id := some "toolu_1" } :
        FunctionResponse).id.getD "" =
      ({ name := "foo", args := "{}", id := some "toolu_1" } :
        FunctionCall).id.getD "" ∨
      ({ name := "foo", response := "ok", id := some "toolu_1" } :
        FunctionResponse).id.getD "" = "") :=
  ⟨by unfold RespIdless; decide,
   toolCallLink_fifo_pairing defaultGen c1P4 (by unfold RespIdless; decide) "foo" 1
     { name := "foo", args := "{}", id := some "toolu_1" }
     { name := "foo", response := "ok", id := some "toolu_1" }
     (by decide) (by decide)⟩

/-- Witness for `grouping_turns_wellformed`: the grouping turn bundling the
P5 scenario's two responses is well-formed, and the model turn passes
through. -/
theorem grouping_turns_wellformed_witness :
    (groupTurn [respPart "a" none, respPart "b" none]) ∈
        fixCLIContents [Turn.mk "model" [callPart "a" none, callPart "b" none],
          Turn.mk "user" [respPart "a" none], Turn.mk "user" [respPart "b" none]] ∧
    ((groupTurn [respPart "a" none, respPart "b" none]) ∈
        [Turn.mk "model" [callPart "a" none, callPart "b" none],
          Turn.mk "user" [respPart "a" none], Turn.mk "user" [respPart "b" none]] ∨
      GoodGroupTurn (groupTurn [respPart "a" none, respPart "b" none])) :=
  ⟨by decide,
   grouping_turns_wellformed _ _ (by decide)⟩

end CLIProxy
